import Mathlib

/-!
Shallow embedding of the secure-paste server core.

The embedded code is `main_flask.py` (chunked-upload pipeline: `upload_chunk`,
`upload_finish`, `clean_temp_folder`, `list_pastes`, `delete_paste`) and the
listing endpoint of `main.py` (`list_pastes` with the remark back-fill),
modelled here as `list_pastes_main`.

Filesystem model: the temp-upload directory `TEMP_DIR` is an association list
from session id (directory name) to a session directory, itself an association
list from fragment sequence number (file name, `str(i)` in Python, injective on
naturals) to the fragment's text content.  The record directory `DATA_DIR` is an
association list from file name to the file's content; a record file's content
is kept at the parse level as `Option Json` (`some j` for a file whose text
parses as the JSON value `j`, `none` for a file whose text does not parse).
`json.loads` is external library code, so commit takes the parse function as an
explicit parameter `parse : String -> Option Json` (`none` models a raised
`JSONDecodeError`).  I/O faults that the Python code catches with
`try/except` during the merge loop and during the final write are modelled by
the explicit fault oracles `rf` (read fault per fragment index) and `pf`
(persist fault).
-/

/-- JSON values as produced by `json.loads`: an object keeps its fields as an
insertion-ordered association list, exactly like a Python `dict`. -/
inductive Json where
  | null
  | bool (b : Bool)
  | num (n : Int)
  | str (s : String)
  | arr (items : List Json)
  | obj (fields : List (String × Json))

/-- Association-list lookup: first binding of the key wins (directories and
Python dicts hold at most one binding per key). -/
def lookupA {κ α : Type} [DecidableEq κ] : List (κ × α) → κ → Option α
  | [], _ => none
  | p :: rest, k => if p.1 = k then some p.2 else lookupA rest k

/-- Association-list update, Python-`dict`/file-overwrite semantics: an
existing binding is overwritten in place, a new key is appended at the end. -/
def setA {κ α : Type} [DecidableEq κ] : List (κ × α) → κ → α → List (κ × α)
  | [], k, v => [(k, v)]
  | p :: rest, k, v => if p.1 = k then (k, v) :: rest else p :: setA rest k v

/-- Association-list removal of every binding of a key (models deleting a
directory entry). -/
def removeA {κ α : Type} [DecidableEq κ] : List (κ × α) → κ → List (κ × α)
  | [], _ => []
  | p :: rest, k => if p.1 = k then removeA rest k else p :: removeA rest k

/-- `chStarts needle hay`: `needle` is a leading segment of `hay`. -/
def chStarts : List Char → List Char → Bool
  | [], _ => true
  | _ :: _, [] => false
  | a :: as, b :: bs => a == b && chStarts as bs

/-- `chHasSub needle hay`: `needle` occurs contiguously inside `hay`. -/
def chHasSub (needle : List Char) : List Char → Bool
  | [] => chStarts needle []
  | c :: cs => chStarts needle (c :: cs) || chHasSub needle cs

/-- Python's substring test `needle in hay`. -/
def strContains (hay needle : String) : Bool :=
  chHasSub needle.data hay.data

/-- Python's `str.endswith` (and the effect of the glob patterns `*.json` and
`*_{id}.json`, whose `*` matches any, possibly empty, run of characters). -/
def endsIn (hay suffix : String) : Bool :=
  chStarts suffix.data.reverse hay.data.reverse

/-- Lexicographic comparison of character lists by code point, as Python
compares strings. -/
def chLe : List Char → List Char → Bool
  | [], _ => true
  | _ :: _, [] => false
  | a :: as, b :: bs => if a < b then true else if b < a then false else chLe as bs

/-- Python's string `<=` (lexicographic by code point). -/
def strLe (a b : String) : Bool := chLe a.data b.data

/-- A session's working directory: fragment files keyed by sequence number. -/
abbrev Session := List (Nat × String)

/-- The server's on-disk state: `temp` is `TEMP_DIR` (one sub-directory per
open session), `data` is `DATA_DIR` (one file per record). -/
structure SrvState where
  temp : List (String × Session)
  data : List (String × Option Json)

/-- `clean_temp_folder` (main_flask.py:24-28): `shutil.rmtree` of the session's
directory, ignoring errors; a missing directory is not an error. -/
def clean_temp_folder (st : SrvState) (upload_id : String) : SrvState :=
  { st with temp := removeA st.temp upload_id }

/-- Outcomes of `upload_chunk` (main_flask.py:42-72). -/
inductive ChunkResult where
  | badParams
  | badId
  | sessionExpired
  | ok
deriving DecidableEq

/-- `upload_chunk` (main_flask.py:42-72).  The JSON body is received already
bound to typed parameters; `upload_id = ""` is falsy in Python and trips the
`bad_params` check.  The fragment file named `str(index)` is written
(overwriting any previous content of that slot). -/
def upload_chunk (st : SrvState) (upload_id : String) (index : Nat)
    (data : String) : ChunkResult × SrvState :=
  if upload_id = "" then (.badParams, st)
  else if strContains upload_id ".." || strContains upload_id "/" then (.badId, st)
  else
    match lookupA st.temp upload_id with
    | none => (.sessionExpired, st)
    | some sess =>
        (.ok, { st with temp := setA st.temp upload_id (setA sess index data) })

/-- Outcomes of `upload_finish` (main_flask.py:75-138).  `serverError` is the
catch-all `except Exception` branch (HTTP 500 with `str(e)`), reached when the
parsed value is not a dict (the `data_obj["server_id"] = ...` item assignment
raises `TypeError`) or when writing the record file raises. -/
inductive FinishResult where
  | badParams
  | notFound
  | missingChunk (i : Nat)
  | mergeFailed
  | invalidJson
  | serverError
  | success (id : String)
deriving DecidableEq

/-- The completeness loop of `upload_finish` (main_flask.py:90-93) checked on
the fuel-indexed range `start, start+1, ...`: first index whose fragment file
does not exist. -/
def firstGapFrom (sess : Session) : Nat → Nat → Option Nat
  | _, 0 => none
  | start, k + 1 =>
      if (lookupA sess start).isNone then some start
      else firstGapFrom sess (start + 1) k

/-- First missing sequence number in `[0, n)`, `none` when all slots exist. -/
def firstGap (sess : Session) (n : Nat) : Option Nat :=
  firstGapFrom sess 0 n

/-- The merge loop of `upload_finish` (main_flask.py:96-100): concatenate the
fragment files' contents for `i = 0, ..., n-1` in ascending order.  It only
runs after the completeness check, so every slot exists; `getD ""` is the
value of a slot the completeness check has already found present. -/
def mergeAll (sess : Session) (n : Nat) : String :=
  ((List.range n).map fun i => (lookupA sess i).getD "").foldl (fun a b => a ++ b) ""

/-- `upload_finish` (main_flask.py:75-138).  Parameters: `parse` models
`json.loads` (`none` = `JSONDecodeError`), `rf i` models an exception while
reading fragment `i` in the merge loop, `pf` models an exception while writing
the record file, `pasteId` is the generated `uuid4().hex`, `ts` the current
`int(time.time())`. -/
def upload_finish (parse : String → Option Json) (rf : Nat → Bool) (pf : Bool)
    (pasteId : String) (ts : Nat) (st : SrvState) (upload_id : String)
    (total_chunks : Nat) : FinishResult × SrvState :=
  if upload_id = "" then (.badParams, st)
  else
    match lookupA st.temp upload_id with
    | none => (.notFound, st)
    | some sess =>
        match firstGap sess total_chunks with
        | some i => (.missingChunk i, clean_temp_folder st upload_id)
        | none =>
            if (List.range total_chunks).any rf then
              (.mergeFailed, clean_temp_folder st upload_id)
            else
              match parse (mergeAll sess total_chunks) with
              | none => (.invalidJson, clean_temp_folder st upload_id)
              | some (Json.obj fields) =>
                  if pf then (.serverError, clean_temp_folder st upload_id)
                  else
                    (.success pasteId,
                      clean_temp_folder
                        { st with
                          data := setA st.data
                            (toString ts ++ "_" ++ pasteId ++ ".json")
                            (some (Json.obj
                              (setA (setA fields "server_id" (Json.str pasteId))
                                "server_ts" (Json.num ts)))) }
                        upload_id)
              | some _ => (.serverError, clean_temp_folder st upload_id)

/-- `DATA_DIR.glob("*.json")`: the record files whose name ends in `.json`. -/
def globJson (st : SrvState) : List (String × Option Json) :=
  st.data.filter fun f => endsIn f.1 ".json"

/-- Descending-name insertion of one file into an already-sorted file list. -/
def insDesc (f : String × Option Json) :
    List (String × Option Json) → List (String × Option Json)
  | [] => [f]
  | g :: rest => if strLe g.1 f.1 then f :: g :: rest else g :: insDesc f rest

/-- `sorted(files, reverse=True)`: the file list in descending lexicographic
order of file name (for paths in one directory, Python path order is the file
name's string order). -/
def sortDesc : List (String × Option Json) → List (String × Option Json)
  | [] => []
  | f :: rest => insDesc f (sortDesc rest)

/-- The sorted record-file listing shared by both `list_pastes`
implementations (main_flask.py:147, main.py:81). -/
def sortedFiles (st : SrvState) : List (String × Option Json) :=
  sortDesc (globJson st)

/-- `list_pastes` (main_flask.py:143-166): first 200 files of the descending
listing; a file that fails to open/parse is skipped (`except: continue`); each
surviving file's parsed content is returned as-is. -/
def list_pastes (st : SrvState) : List Json :=
  ((sortedFiles st).take 200).filterMap fun f => f.2

/-- Python's `"remark" in xs` for a list `xs`: membership under `==`; only the
string `"remark"` itself compares equal to `"remark"`. -/
def jlistHasRemark : List Json → Bool
  | [] => false
  | Json.str s :: rest => s = "remark" || jlistHasRemark rest
  | _ :: rest => jlistHasRemark rest

/-- The per-file body of `list_pastes` in main.py (main.py:84-92), after a
successful `json.load`: `if "remark" not in data: data["remark"] = ""`, then
append `data`; any exception in the body (`TypeError` from `in` on a
non-iterable, or from item assignment on a non-dict) hits the
`except Exception: continue` and skips the file (`none`). -/
def remarkFill : Json → Option Json
  | Json.obj fields =>
      if (lookupA fields "remark").isSome then some (Json.obj fields)
      else some (Json.obj (setA fields "remark" (Json.str "")))
  | Json.arr items =>
      if jlistHasRemark items then some (Json.arr items) else none
  | Json.str s =>
      if strContains s "remark" then some (Json.str s) else none
  | _ => none

/-- `list_pastes` of main.py (main.py:78-94): same listing window, but each
parsed record goes through the remark back-fill before being returned. -/
def list_pastes_main (st : SrvState) : List Json :=
  ((sortedFiles st).take 200).filterMap fun f => f.2.bind remarkFill

/-- Outcomes of `delete_paste` (main_flask.py:169-184): the success response
is `{"status": "success"}` and carries no other data. -/
inductive DeleteResult where
  | invalidId
  | notFound
  | ok
deriving DecidableEq

/-- The glob `*_{paste_id}.json` (main_flask.py:174): file names ending in
`_{paste_id}.json`. -/
def matchKey (paste_id fname : String) : Bool :=
  endsIn fname ("_" ++ paste_id ++ ".json")

/-- `delete_paste` (main_flask.py:169-184): reject traversal characters, glob
for `*_{paste_id}.json`, 404 when nothing matches, otherwise remove every
match and reply `{"status": "success"}`. -/
def delete_paste (st : SrvState) (paste_id : String) : DeleteResult × SrvState :=
  if strContains paste_id ".." || strContains paste_id "/" then (.invalidId, st)
  else if (st.data.filter fun f => matchKey paste_id f.1).isEmpty then (.notFound, st)
  else (.ok, { st with data := st.data.filter fun f => !(matchKey paste_id f.1) })

/-- Pushing a list of fragments through `upload_chunk`, in arrival order. -/
def pushMany (st : SrvState) (upload_id : String) :
    List (Nat × String) → SrvState
  | [] => st
  | p :: rest => pushMany (upload_chunk st upload_id p.1 p.2).2 upload_id rest

/-! ### Concrete states and parse functions used by witnesses and
counterexamples -/

/-- A store with exactly one record whose key matches identifier `x`. -/
def c1st1 : SrvState := ⟨[], [("1_x.json", some Json.null)]⟩

/-- A store with two records whose keys both match identifier `x` (the
timestamp-collision scenario the spec tolerates). -/
def c1st2 : SrvState := ⟨[], [("1_x.json", some Json.null), ("2_x.json", some Json.null)]⟩

/-- A parse function agreeing with `json.loads` on the one input it is applied
to: `json.loads("[1]")` succeeds and yields the array `[1]`, a non-object. -/
def c2parse : String → Option Json :=
  fun s => if s = "[1]" then some (Json.arr [Json.num 1]) else none

/-- One open session whose single fragment reassembles to `[1]`. -/
def c2st : SrvState := ⟨[("s", [(0, "[1]")])], []⟩

/-- One open session holding only fragment 1; fragment 0 is missing. -/
def c3st : SrvState := ⟨[("s", [(1, "b")])], []⟩

/-- A freshly opened (empty) session named `s`. -/
def c4st : SrvState := ⟨[("s", [])], []⟩

/-- The reassembled text of the C5 session: the valid JSON document
`{"server_id": "mine"}`, a one-field object whose only field carries the
caller-chosen name `server_id`. -/
def c5text : String := "\x7b\"server_id\": \"mine\"\x7d"

/-- A parse function agreeing with `json.loads` on the one input it is
applied to: `json.loads` parses the document `c5text` to the object with the
single field `server_id` bound to the string `mine`. -/
def c5parse : String → Option Json :=
  fun s => if s = c5text then some (Json.obj [("server_id", Json.str "mine")]) else none

/-- One open session whose single fragment reassembles to `c5text`. -/
def c5st : SrvState := ⟨[("s", [(0, c5text)])], []⟩

/-- An empty server state. -/
def c7st : SrvState := ⟨[], []⟩

/-- One open session holding fragment 0. -/
def c8st : SrvState := ⟨[("s", [(0, "x")])], []⟩

/-- A store with one record that has no `remark` field. -/
def c9st : SrvState :=
  ⟨[], [("5_a.json", some (Json.obj [("server_id", Json.str "a")]))]⟩

/-- An open empty session, about to be committed with `total_chunks = 0`. -/
def c10st : SrvState := ⟨[("s", [])], []⟩

/-! ### Association-list lemmas -/

theorem lookupA_setA_self {κ α : Type} [DecidableEq κ] (t : List (κ × α)) (k : κ)
    (v : α) : lookupA (setA t k v) k = some v := by
  induction t with
  | nil => simp [setA, lookupA]
  | cons p rest ih =>
      by_cases h : p.1 = k
      · simp [setA, h, lookupA]
      · simp [setA, h, lookupA, ih]

theorem setA_setA {κ α : Type} [DecidableEq κ] (t : List (κ × α)) (k : κ)
    (v w : α) : setA (setA t k v) k w = setA t k w := by
  induction t with
  | nil => simp [setA]
  | cons p rest ih =>
      by_cases h : p.1 = k
      · simp [setA, h]
      · simp [setA, h, ih]

theorem removeA_setA {κ α : Type} [DecidableEq κ] (t : List (κ × α)) (k : κ)
    (v : α) : removeA (setA t k v) k = removeA t k := by
  induction t with
  | nil => simp [setA, removeA]
  | cons p rest ih =>
      by_cases h : p.1 = k
      · simp [setA, h, removeA]
      · simp [setA, h, removeA, ih]

theorem lookupA_removeA_self {κ α : Type} [DecidableEq κ] (t : List (κ × α))
    (k : κ) : lookupA (removeA t k) k = none := by
  induction t with
  | nil => simp [removeA, lookupA]
  | cons p rest ih =>
      by_cases h : p.1 = k
      · simp [removeA, h, ih]
      · simp [removeA, h, lookupA, ih]

theorem setA_lookup_id {κ α : Type} [DecidableEq κ] {t : List (κ × α)} {k : κ}
    {v : α} (h : lookupA t k = some v) : setA t k v = t := by
  induction t with
  | nil => simp [lookupA] at h
  | cons p rest ih =>
      obtain ⟨p1, p2⟩ := p
      by_cases hk : p1 = k
      · subst hk
        simp [lookupA] at h
        simp [setA, h]
      · simp [lookupA, hk] at h
        simp [setA, hk, ih h]

theorem setA_append_fresh {κ α : Type} [DecidableEq κ] {t : List (κ × α)} {k : κ}
    (v : α) (h : k ∉ t.map Prod.fst) : setA t k v = t ++ [(k, v)] := by
  induction t with
  | nil => simp [setA]
  | cons p rest ih =>
      simp only [List.map_cons, List.mem_cons] at h
      push_neg at h
      have h1 : p.1 ≠ k := fun hc => h.1 hc.symm
      simp [setA, h1, ih h.2]

theorem lookupA_perm {κ α : Type} [DecidableEq κ] {l l' : List (κ × α)}
    (hp : l.Perm l') :
    (l.map Prod.fst).Nodup → ∀ k, lookupA l k = lookupA l' k := by
  induction hp with
  | nil => intro _ k; rfl
  | cons x _ ih =>
      intro hnd k
      simp only [List.map_cons, List.nodup_cons] at hnd
      by_cases h : x.1 = k
      · simp [lookupA, h]
      · simp [lookupA, h, ih hnd.2 k]
  | swap x y rest =>
      intro hnd k
      simp only [List.map_cons, List.nodup_cons, List.mem_cons] at hnd
      have hxy : y.1 ≠ x.1 := fun hc => hnd.1 (Or.inl hc)
      by_cases hx : x.1 = k
      · have hy : y.1 ≠ k := fun hc => hxy (hc.trans hx.symm)
        simp [lookupA, hx, hy]
      · by_cases hy : y.1 = k
        · simp [lookupA, hx, hy]
        · simp [lookupA, hx, hy]
  | trans h₁ _ ih₁ ih₂ =>
      intro hnd k
      have hnd₂ := ((h₁.map Prod.fst).nodup_iff).mp hnd
      exact (ih₁ hnd k).trans (ih₂ hnd₂ k)

/-! ### Completeness-check lemmas -/

theorem firstGapFrom_none (sess : Session) :
    ∀ k start, (∀ j, start ≤ j → j < start + k → (lookupA sess j).isSome) →
      firstGapFrom sess start k = none := by
  intro k
  induction k with
  | zero => intro start _; rfl
  | succ k ih =>
      intro start h
      have hs : (lookupA sess start).isSome :=
        h start (Nat.le_refl _) (Nat.lt_add_of_pos_right (Nat.succ_pos k))
      have hs' : (lookupA sess start).isNone = false := by
        cases hlk : lookupA sess start with
        | none => rw [hlk] at hs; simp [Option.isSome] at hs
        | some v => simp [Option.isNone]
      rw [firstGapFrom, hs', if_neg (by simp)]
      exact ih (start + 1) (fun j hj1 hj2 => h j (Nat.le_of_succ_le hj1) (by omega))

theorem firstGapFrom_some (sess : Session) :
    ∀ k start i, start ≤ i → i < start + k → lookupA sess i = none →
      (∀ j, start ≤ j → j < i → (lookupA sess j).isSome) →
      firstGapFrom sess start k = some i := by
  intro k
  induction k with
  | zero => intro start i h1 h2 _ _; omega
  | succ k ih =>
      intro start i h1 h2 hmiss hpres
      by_cases hsi : start = i
      · subst hsi
        rw [firstGapFrom, hmiss]
        simp [Option.isNone]
      · have hlt : start < i := Nat.lt_of_le_of_ne h1 hsi
        have hs : (lookupA sess start).isSome := hpres start (Nat.le_refl _) hlt
        have hs' : (lookupA sess start).isNone = false := by
          cases hlk : lookupA sess start with
          | none => rw [hlk] at hs; simp [Option.isSome] at hs
          | some v => simp [Option.isNone]
        rw [firstGapFrom, hs', if_neg (by simp)]
        exact ih (start + 1) i hlt (by omega) hmiss
          (fun j hj1 hj2 => hpres j (Nat.le_of_succ_le hj1) hj2)

theorem firstGap_none {sess : Session} {n : Nat}
    (h : ∀ i, i < n → (lookupA sess i).isSome) : firstGap sess n = none :=
  firstGapFrom_none sess n 0 (fun j _ hj => h j (by omega))

theorem firstGap_some {sess : Session} {n i : Nat} (h1 : i < n)
    (hmiss : lookupA sess i = none)
    (hpres : ∀ j, j < i → (lookupA sess j).isSome) :
    firstGap sess n = some i :=
  firstGapFrom_some sess n 0 i (Nat.zero_le _) (by omega) hmiss
    (fun j _ hj => hpres j hj)

theorem firstGapFrom_congr {s₁ s₂ : Session}
    (h : ∀ k, lookupA s₁ k = lookupA s₂ k) :
    ∀ fuel start, firstGapFrom s₁ start fuel = firstGapFrom s₂ start fuel := by
  intro fuel
  induction fuel with
  | zero => intro start; rfl
  | succ k ih =>
      intro start
      rw [firstGapFrom, firstGapFrom, h start, ih (start + 1)]

theorem mergeAll_congr {s₁ s₂ : Session}
    (h : ∀ k, lookupA s₁ k = lookupA s₂ k) (n : Nat) :
    mergeAll s₁ n = mergeAll s₂ n := by
  unfold mergeAll
  congr 1
  exact List.map_congr_left (fun i _ => by rw [h i])

/-! ### Lexicographic-order lemmas -/

theorem chLe_total : ∀ as bs : List Char, chLe as bs = false → chLe bs as = true := by
  intro as
  induction as with
  | nil => intro bs h; simp [chLe] at h
  | cons a as ih =>
      intro bs h
      cases bs with
      | nil => rfl
      | cons b bs =>
          rcases lt_trichotomy a b with hab | hab | hab
          · simp [chLe, hab] at h
          · subst hab
            simp [chLe, lt_irrefl] at h ⊢
            exact ih bs h
          · simp [chLe, hab, lt_asymm hab]

theorem chLe_trans :
    ∀ as bs cs : List Char, chLe as bs = true → chLe bs cs = true →
      chLe as cs = true := by
  intro as
  induction as with
  | nil => intro bs cs _ _; rfl
  | cons a as ih =>
      intro bs cs h1 h2
      cases bs with
      | nil => simp [chLe] at h1
      | cons b bs =>
          cases cs with
          | nil => simp [chLe] at h2
          | cons c cs =>
              rcases lt_trichotomy a b with hab | hab | hab
              · rcases lt_trichotomy b c with hbc | hbc | hbc
                · simp [chLe, lt_trans hab hbc]
                · subst hbc; simp [chLe, hab]
                · simp [chLe, hbc, lt_asymm hbc] at h2
              · subst hab
                simp [chLe, lt_irrefl] at h1
                rcases lt_trichotomy a c with hac | hac | hac
                · simp [chLe, hac]
                · subst hac
                  simp [chLe, lt_irrefl] at h2 ⊢
                  exact ih bs cs h1 h2
                · simp [chLe, hac, lt_asymm hac] at h2
              · simp [chLe, hab, lt_asymm hab] at h1

theorem strLe_total {a b : String} (h : strLe a b = false) : strLe b a = true :=
  chLe_total a.data b.data h

theorem strLe_trans {a b c : String} (h1 : strLe a b = true)
    (h2 : strLe b c = true) : strLe a c = true :=
  chLe_trans a.data b.data c.data h1 h2

/-! ### Sorting lemmas -/

theorem insDesc_perm (f : String × Option Json) :
    ∀ l, (insDesc f l).Perm (f :: l) := by
  intro l
  induction l with
  | nil => exact List.Perm.refl _
  | cons g rest ih =>
      rw [insDesc]
      by_cases h : strLe g.1 f.1 = true
      · rw [if_pos h]
      · rw [if_neg h]
        exact (ih.cons g).trans (List.Perm.swap f g rest)

theorem sortDesc_perm : ∀ l, (sortDesc l).Perm l := by
  intro l
  induction l with
  | nil => exact List.Perm.refl _
  | cons f rest ih =>
      rw [sortDesc]
      exact (insDesc_perm f (sortDesc rest)).trans (ih.cons f)

theorem pairwise_insDesc (f : String × Option Json) :
    ∀ l, List.Pairwise (fun a b => strLe b.1 a.1 = true) l →
      List.Pairwise (fun a b => strLe b.1 a.1 = true) (insDesc f l) := by
  intro l
  induction l with
  | nil => intro _; simp [insDesc]
  | cons g rest ih =>
      intro hl
      rw [List.pairwise_cons] at hl
      rw [insDesc]
      by_cases h : strLe g.1 f.1 = true
      · rw [if_pos h, List.pairwise_cons]
        refine ⟨?_, List.pairwise_cons.mpr hl⟩
        intro x hx
        rcases List.mem_cons.mp hx with hx | hx
        · subst hx; exact h
        · exact strLe_trans (hl.1 x hx) h
      · rw [if_neg h, List.pairwise_cons]
        refine ⟨?_, ih hl.2⟩
        intro y hy
        have hy' : y ∈ f :: rest := (insDesc_perm f rest).mem_iff.mp hy
        rcases List.mem_cons.mp hy' with hy' | hy'
        · subst hy'
          exact strLe_total (Bool.not_eq_true _ ▸ h)
        · exact hl.1 y hy'

theorem sortDesc_sorted :
    ∀ l, List.Pairwise (fun a b => strLe b.1 a.1 = true) (sortDesc l) := by
  intro l
  induction l with
  | nil => simp [sortDesc]
  | cons f rest ih => exact pairwise_insDesc f (sortDesc rest) ih

/-! ### Fragment-push lemmas -/

theorem foldl_setA_fresh :
    ∀ (l acc : Session), (l.map Prod.fst).Nodup →
      (∀ k, k ∈ l.map Prod.fst → k ∉ acc.map Prod.fst) →
      l.foldl (fun s p => setA s p.1 p.2) acc = acc ++ l := by
  intro l
  induction l with
  | nil => intro acc _ _; simp
  | cons p rest ih =>
      intro acc hnd hdisj
      simp only [List.map_cons, List.nodup_cons] at hnd
      have hfresh : p.1 ∉ acc.map Prod.fst :=
        hdisj p.1 (by simp)
      have step : setA acc p.1 p.2 = acc ++ [p] := setA_append_fresh p.2 hfresh
      have hdisj2 : ∀ k, k ∈ rest.map Prod.fst → k ∉ (acc ++ [p]).map Prod.fst := by
        intro k hk
        rw [List.map_append, List.mem_append]
        push_neg
        refine ⟨hdisj k (by simp [hk]), ?_⟩
        simp only [List.map_cons, List.map_nil, List.mem_singleton]
        intro hkp
        exact hnd.1 (hkp ▸ hk)
      rw [List.foldl_cons, step, ih (acc ++ [p]) hnd.2 hdisj2]
      simp

theorem pushMany_state {upload_id : String} (hid : upload_id ≠ "")
    (h1 : strContains upload_id ".." = false)
    (h2 : strContains upload_id "/" = false) :
    ∀ (l : List (Nat × String)) (st : SrvState) (s₀ : Session),
      lookupA st.temp upload_id = some s₀ →
      pushMany st upload_id l =
        { st with
          temp := setA st.temp upload_id (l.foldl (fun s p => setA s p.1 p.2) s₀) } := by
  intro l
  induction l with
  | nil =>
      intro st s₀ hs
      simp [pushMany, List.foldl_nil, setA_lookup_id hs]
  | cons p rest ih =>
      intro st s₀ hs
      have hchunk : upload_chunk st upload_id p.1 p.2 =
          (.ok, { st with temp := setA st.temp upload_id (setA s₀ p.1 p.2) }) := by
        rw [upload_chunk, if_neg hid, h1, h2]
        simp [hs]
      rw [pushMany, hchunk]
      rw [ih _ (setA s₀ p.1 p.2) (lookupA_setA_self _ _ _)]
      simp [setA_setA]

theorem lookupA_setA_ne {κ α : Type} [DecidableEq κ] (t : List (κ × α))
    {k k' : κ} (v : α) (h : k' ≠ k) : lookupA (setA t k v) k' = lookupA t k' := by
  have h' : ¬k = k' := fun hc => h hc.symm
  induction t with
  | nil => simp [setA, lookupA, h']
  | cons p rest ih =>
      by_cases hk : p.1 = k
      · subst hk
        simp [setA, lookupA, h']
      · simp only [setA, if_neg hk, lookupA]
        by_cases hk' : p.1 = k'
        · simp [hk']
        · simp [hk', ih]

/-- Every branch of `upload_finish` on an existing session removes the
session's working directory and touches nothing else under `TEMP_DIR`. -/
theorem finish_temp (parse : String → Option Json) (rf : Nat → Bool) (pf : Bool)
    (pid : String) (ts : Nat) {st : SrvState} {sid : String} {sess : Session}
    (hid : sid ≠ "") (hsess : lookupA st.temp sid = some sess) (n : Nat) :
    (upload_finish parse rf pf pid ts st sid n).2.temp = removeA st.temp sid := by
  rw [upload_finish, if_neg hid, hsess]
  dsimp only
  cases hfg : firstGap sess n with
  | some i => rfl
  | none =>
      by_cases hrf : (List.range n).any rf = true
      · rw [if_pos hrf]; rfl
      · rw [if_neg hrf]
        cases hp : parse (mergeAll sess n) with
        | none => rfl
        | some j =>
            cases j with
            | null => rfl
            | bool b => rfl
            | num m => rfl
            | str s => rfl
            | arr items => rfl
            | obj fields =>
                dsimp only
                by_cases hpf : pf = true
                · rw [if_pos hpf]; rfl
                · rw [if_neg hpf]; rfl

/-- `upload_finish` reads the session directory only through slot lookups:
two sessions with identical slot contents give identical commits. -/
theorem finish_setA_congr (parse : String → Option Json) (rf : Nat → Bool)
    (pf : Bool) (pid : String) (ts : Nat) {t : List (String × Session)}
    {d : List (String × Option Json)} {sid : String} (hid : sid ≠ "")
    {s₁ s₂ : Session} (hlk : ∀ k, lookupA s₁ k = lookupA s₂ k) (n : Nat) :
    upload_finish parse rf pf pid ts ⟨setA t sid s₁, d⟩ sid n =
      upload_finish parse rf pf pid ts ⟨setA t sid s₂, d⟩ sid n := by
  have h₁ : lookupA (setA t sid s₁) sid = some s₁ := lookupA_setA_self _ _ _
  have h₂ : lookupA (setA t sid s₂) sid = some s₂ := lookupA_setA_self _ _ _
  have hfg : firstGap s₁ n = firstGap s₂ n := firstGapFrom_congr hlk n 0
  have hmg : mergeAll s₁ n = mergeAll s₂ n := mergeAll_congr hlk n
  have hcl : clean_temp_folder (⟨setA t sid s₁, d⟩ : SrvState) sid =
      clean_temp_folder (⟨setA t sid s₂, d⟩ : SrvState) sid := by
    simp [clean_temp_folder, removeA_setA]
  rw [upload_finish, upload_finish, if_neg hid, if_neg hid, h₁, h₂]
  dsimp only
  rw [hfg, hmg]
  cases firstGap s₂ n with
  | some i => rw [hcl]
  | none =>
      dsimp only
      by_cases hrf : (List.range n).any rf = true
      · rw [if_pos hrf, if_pos hrf, hcl]
      · rw [if_neg hrf, if_neg hrf]
        cases parse (mergeAll s₂ n) with
        | none => rw [hcl]
        | some j =>
            cases j with
            | null => rw [hcl]
            | bool b => rw [hcl]
            | num m => rw [hcl]
            | str s => rw [hcl]
            | arr items => rw [hcl]
            | obj fields =>
                dsimp only
                by_cases hpf : pf = true
                · rw [if_pos hpf, if_pos hpf, hcl]
                · rw [if_neg hpf, if_neg hpf]
                  simp [clean_temp_folder, removeA_setA]

/-! ### Claim theorems -/

/-- C6: for every state of the record store, both list implementations
enumerate the record files in descending lexicographic order of the
`{timestamp}_{identifier}.json` file name, return exactly the parsed contents
of the first 200 files of that ordering (skipping unparseable ones), and hence
never return more than 200 records even when more exist. -/
theorem c6_list_desc_capped (st : SrvState) :
    list_pastes st = ((sortedFiles st).take 200).filterMap (fun f => f.2) ∧
    (list_pastes st).length ≤ 200 ∧
    (list_pastes_main st).length ≤ 200 ∧
    List.Pairwise (fun a b => strLe b.1 a.1 = true) (sortedFiles st) := by
  refine ⟨rfl, ?_, ?_, sortDesc_sorted _⟩
  · exact le_trans (List.length_filterMap_le _ _) (List.length_take_le _ _)
  · exact le_trans (List.length_filterMap_le _ _) (List.length_take_le _ _)

/-- C7: a session token (for push) or identifier (for delete) that contains
`..` or `/` (the platform path separator on the posix deployment target) is
rejected with the invalid-identifier error, and the state is returned
untouched — the check precedes every directory access. -/
theorem c7_traversal_rejected (st : SrvState) (index : Nat) (payload : String)
    {tok : String} (hne : tok ≠ "")
    (hbad : strContains tok ".." = true ∨ strContains tok "/" = true) :
    upload_chunk st tok index payload = (.badId, st) ∧
    delete_paste st tok = (.invalidId, st) := by
  have hor : (strContains tok ".." || strContains tok "/") = true := by
    rcases hbad with h | h <;> simp [h]
  constructor
  · rw [upload_chunk, if_neg hne, hor]; rfl
  · rw [delete_paste, hor]; rfl

/-- C7 witness: the traversal token `../x` is rejected by both operations on a
concrete state. -/
theorem c7_witness :
    upload_chunk c7st "../x" 0 "p" = (.badId, c7st) ∧
    delete_paste c7st "../x" = (.invalidId, c7st) :=
  c7_traversal_rejected c7st 0 "p" (by decide) (Or.inl (by decide))

/-- C8: every commit on an existing session removes the session's working
directory before returning, on the success path and on every failure
branch (missing chunk, merge fault, parse failure, non-object payload,
persist fault). -/
theorem c8_commit_destroys_session (parse : String → Option Json)
    (rf : Nat → Bool) (pf : Bool) (pid : String) (ts n : Nat)
    {st : SrvState} {sid : String} {sess : Session}
    (hid : sid ≠ "") (hsess : lookupA st.temp sid = some sess) :
    lookupA (upload_finish parse rf pf pid ts st sid n).2.temp sid = none := by
  rw [finish_temp parse rf pf pid ts hid hsess n]
  exact lookupA_removeA_self _ _

/-- C8 witness: a concrete commit removes the session directory. -/
theorem c8_witness :
    lookupA (upload_finish (fun _ => none) (fun _ => false) false "id" 3
      c8st "s" 1).2.temp "s" = none :=
  c8_commit_destroys_session (fun _ => none) (fun _ => false) false "id" 3 1
    (by decide) rfl

/-- C10: committing an existing session with `total_chunks = 0` passes the
vacuous completeness check, reassembles the empty string, which `json.loads`
rejects, so the commit always fails with the format error, destroys the
session, and adds no record. -/
theorem c10_empty_commit_fails (parse : String → Option Json)
    (rf : Nat → Bool) (pf : Bool) (pid : String) (ts : Nat)
    {st : SrvState} {sid : String} {sess : Session}
    (hid : sid ≠ "") (hsess : lookupA st.temp sid = some sess)
    (hparse : parse "" = none) :
    upload_finish parse rf pf pid ts st sid 0 =
      (.invalidJson, clean_temp_folder st sid) ∧
    (upload_finish parse rf pf pid ts st sid 0).2.data = st.data ∧
    lookupA (upload_finish parse rf pf pid ts st sid 0).2.temp sid = none := by
  have hmain : upload_finish parse rf pf pid ts st sid 0 =
      (.invalidJson, clean_temp_folder st sid) := by
    rw [upload_finish, if_neg hid, hsess]
    dsimp only
    rw [show mergeAll sess 0 = "" from rfl, hparse]
    rfl
  refine ⟨hmain, by rw [hmain]; rfl, by rw [hmain]; exact lookupA_removeA_self _ _⟩

/-- C10 witness: committing the concrete empty session with count 0 fails with
the format error and destroys the session. -/
theorem c10_witness :
    upload_finish (fun _ => none) (fun _ => false) false "id" 3 c10st "s" 0 =
      (.invalidJson, clean_temp_folder c10st "s") ∧
    (upload_finish (fun _ => none) (fun _ => false) false "id" 3 c10st "s" 0).2.data
      = c10st.data ∧
    lookupA (upload_finish (fun _ => none) (fun _ => false) false "id" 3
      c10st "s" 0).2.temp "s" = none :=
  c10_empty_commit_fails (fun _ => none) (fun _ => false) false "id" 3
    (by decide) rfl rfl

/-- C3: a commit on an existing session with some slot in
`[0, total_chunks)` missing fails with `missing_chunk_{i}` for the first
(smallest) missing index `i`, destroys the session, and adds no record. -/
theorem c3_missing_chunk (parse : String → Option Json) (rf : Nat → Bool)
    (pf : Bool) (pid : String) (ts : Nat)
    {st : SrvState} {sid : String} {sess : Session} {n i : Nat}
    (hid : sid ≠ "") (hsess : lookupA st.temp sid = some sess)
    (hin : i < n) (hmiss : lookupA sess i = none)
    (hpres : ∀ j, j < i → (lookupA sess j).isSome = true) :
    upload_finish parse rf pf pid ts st sid n =
      (.missingChunk i, clean_temp_folder st sid) ∧
    (upload_finish parse rf pf pid ts st sid n).2.data = st.data ∧
    lookupA (upload_finish parse rf pf pid ts st sid n).2.temp sid = none := by
  have hfg : firstGap sess n = some i := firstGap_some hin hmiss hpres
  have hmain : upload_finish parse rf pf pid ts st sid n =
      (.missingChunk i, clean_temp_folder st sid) := by
    rw [upload_finish, if_neg hid, hsess]
    dsimp only
    rw [hfg]
  refine ⟨hmain, by rw [hmain]; rfl, by rw [hmain]; exact lookupA_removeA_self _ _⟩

/-- C3 witness: committing a session holding only fragment 1 with count 2
fails naming missing index 0 and destroys the session. -/
theorem c3_witness :
    upload_finish (fun _ => none) (fun _ => false) false "id" 3 c3st "s" 2 =
      (.missingChunk 0, clean_temp_folder c3st "s") ∧
    (upload_finish (fun _ => none) (fun _ => false) false "id" 3 c3st "s" 2).2.data
      = c3st.data ∧
    lookupA (upload_finish (fun _ => none) (fun _ => false) false "id" 3
      c3st "s" 2).2.temp "s" = none :=
  c3_missing_chunk (fun _ => none) (fun _ => false) false "id" 3
    (by decide) rfl (by decide) rfl (fun j hj => absurd hj (Nat.not_lt_zero j))

/-- C2 counterexample: the reassembled stream `[1]` is valid JSON but not an
object (`json.loads("[1]")` yields the array `[1]`, and the subsequent item
assignment raises `TypeError`), so the commit ends in the generic 500
catch-all branch, not in the format-error (`invalid_json_reconstructed`, 400)
branch the claim requires. -/
theorem c2_counterexample :
    (upload_finish c2parse (fun _ => false) false "fresh" 7 c2st "s" 1).1 =
      FinishResult.serverError ∧
    (upload_finish c2parse (fun _ => false) false "fresh" 7 c2st "s" 1).1 ≠
      FinishResult.invalidJson := by decide

/-- C2 (amended): a commit on an existing, complete session whose reassembled
stream does not parse to a JSON object fails — with the format error when the
stream is not valid JSON at all, and with the generic server error when it is
valid JSON of a non-object shape — and in either case the session is
destroyed and no record is added to the store. -/
theorem c2_commit_nonobject_fails_cleanly (parse : String → Option Json)
    (rf : Nat → Bool) (pf : Bool) (pid : String) (ts : Nat)
    {st : SrvState} {sid : String} {sess : Session} {n : Nat}
    (hid : sid ≠ "") (hsess : lookupA st.temp sid = some sess)
    (hfull : ∀ i, i < n → (lookupA sess i).isSome = true)
    (hrf : (List.range n).any rf = false)
    (hshape : ∀ fields, parse (mergeAll sess n) ≠ some (Json.obj fields)) :
    ((upload_finish parse rf pf pid ts st sid n).1 = .invalidJson ∨
      (upload_finish parse rf pf pid ts st sid n).1 = .serverError) ∧
    (parse (mergeAll sess n) = none →
      (upload_finish parse rf pf pid ts st sid n).1 = .invalidJson) ∧
    (∀ j, parse (mergeAll sess n) = some j →
      (upload_finish parse rf pf pid ts st sid n).1 = .serverError) ∧
    (upload_finish parse rf pf pid ts st sid n).2.data = st.data ∧
    lookupA (upload_finish parse rf pf pid ts st sid n).2.temp sid = none := by
  have hfg : firstGap sess n = none := firstGap_none hfull
  have hrf' : ¬((List.range n).any rf = true) := by simp [hrf]
  rw [upload_finish, if_neg hid, hsess]
  dsimp only
  rw [hfg]
  dsimp only
  rw [if_neg hrf']
  cases hp : parse (mergeAll sess n) with
  | none =>
      exact ⟨Or.inl rfl, fun _ => rfl, fun j hj => Option.noConfusion hj, rfl,
        lookupA_removeA_self _ _⟩
  | some j =>
      cases j with
      | null => exact ⟨Or.inr rfl, fun hc => Option.noConfusion hc,
          fun j hj => rfl, rfl, lookupA_removeA_self _ _⟩
      | bool b => exact ⟨Or.inr rfl, fun hc => Option.noConfusion hc,
          fun j hj => rfl, rfl, lookupA_removeA_self _ _⟩
      | num m => exact ⟨Or.inr rfl, fun hc => Option.noConfusion hc,
          fun j hj => rfl, rfl, lookupA_removeA_self _ _⟩
      | str s => exact ⟨Or.inr rfl, fun hc => Option.noConfusion hc,
          fun j hj => rfl, rfl, lookupA_removeA_self _ _⟩
      | arr items => exact ⟨Or.inr rfl, fun hc => Option.noConfusion hc,
          fun j hj => rfl, rfl, lookupA_removeA_self _ _⟩
      | obj fields => exact absurd hp (hshape fields)

/-- C2 witness: on the concrete commit whose stream reassembles to the valid
non-object JSON `[1]`, the amended theorem pins the generic server error (not
the format error), with the session destroyed and the store unchanged. -/
theorem c2_witness :
    (upload_finish c2parse (fun _ => false) false "fresh" 7 c2st "s" 1).1 =
      FinishResult.serverError ∧
    (upload_finish c2parse (fun _ => false) false "fresh" 7 c2st "s" 1).2.data =
      c2st.data ∧
    lookupA (upload_finish c2parse (fun _ => false) false "fresh" 7
      c2st "s" 1).2.temp "s" = none := by
  have h := @c2_commit_nonobject_fails_cleanly c2parse (fun _ => false) false
    "fresh" 7 c2st "s" [(0, "[1]")] 1 (by decide) rfl
    (fun i hi => by
      have h0 : i = 0 := by omega
      subst h0; rfl)
    rfl
    (fun fields h => Json.noConfusion (Option.some.inj h))
  exact ⟨h.2.2.1 (Json.arr [Json.num 1]) rfl, h.2.2.2.1, h.2.2.2.2⟩

/-- C5 counterexample: the caller-supplied document `{"server_id": "mine"}`
is persisted with its `server_id` field overwritten by the fresh server
identifier — the injected field names do collide with caller-supplied fields,
and the colliding caller field does not appear unchanged. -/
theorem c5_counterexample :
    (upload_finish c5parse (fun _ => false) false "fresh" 7 c5st "s" 1).1 =
      FinishResult.success "fresh" ∧
    (upload_finish c5parse (fun _ => false) false "fresh" 7 c5st "s" 1).2.data =
      [("7_fresh.json", some (Json.obj
        [("server_id", Json.str "fresh"), ("server_ts", Json.num 7)]))] ∧
    Json.str "fresh" ≠ Json.str "mine" :=
  ⟨by decide, rfl, by intro h; injection h with h'; exact absurd h' (by decide)⟩

/-- C5 (amended): a successful commit persists the parsed document with the
fields `server_id` (set to the fresh identifier) and `server_ts` (set to the
current timestamp) written into it; every caller-supplied field whose name is
neither `server_id` nor `server_ts` appears unchanged in the persisted
record, while caller-supplied fields with those two names are overwritten. -/
theorem c5_enrichment (parse : String → Option Json) (rf : Nat → Bool)
    (pid : String) (ts : Nat)
    {st : SrvState} {sid : String} {sess : Session} {n : Nat}
    {fields : List (String × Json)}
    (hid : sid ≠ "") (hsess : lookupA st.temp sid = some sess)
    (hfull : ∀ i, i < n → (lookupA sess i).isSome = true)
    (hrf : (List.range n).any rf = false)
    (hp : parse (mergeAll sess n) = some (Json.obj fields)) :
    upload_finish parse rf false pid ts st sid n =
      (.success pid,
        clean_temp_folder
          { st with
            data := setA st.data (toString ts ++ "_" ++ pid ++ ".json")
              (some (Json.obj (setA (setA fields "server_id" (Json.str pid))
                "server_ts" (Json.num ts)))) } sid) ∧
    lookupA (setA (setA fields "server_id" (Json.str pid)) "server_ts"
      (Json.num ts)) "server_id" = some (Json.str pid) ∧
    lookupA (setA (setA fields "server_id" (Json.str pid)) "server_ts"
      (Json.num ts)) "server_ts" = some (Json.num ts) ∧
    ∀ k v, k ≠ "server_id" → k ≠ "server_ts" → lookupA fields k = some v →
      lookupA (setA (setA fields "server_id" (Json.str pid)) "server_ts"
        (Json.num ts)) k = some v := by
  have hfg : firstGap sess n = none := firstGap_none hfull
  have hrf' : ¬((List.range n).any rf = true) := by simp [hrf]
  refine ⟨?_, ?_, ?_, ?_⟩
  · rw [upload_finish, if_neg hid, hsess]
    dsimp only
    rw [hfg]
    dsimp only
    rw [if_neg hrf', hp]
    rfl
  · rw [lookupA_setA_ne _ _ (by decide)]
    exact lookupA_setA_self _ _ _
  · exact lookupA_setA_self _ _ _
  · intro k v hk1 hk2 hv
    rw [lookupA_setA_ne _ _ hk2, lookupA_setA_ne _ _ hk1, hv]

/-- C5 witness: the amended enrichment on a concrete commit whose document
carries a colliding `server_id` field. -/
theorem c5_witness :
    upload_finish c5parse (fun _ => false) false "fresh" 7 c5st "s" 1 =
      (.success "fresh",
        clean_temp_folder
          { c5st with
            data := setA c5st.data (toString 7 ++ "_" ++ "fresh" ++ ".json")
              (some (Json.obj (setA (setA [("server_id", Json.str "mine")]
                "server_id" (Json.str "fresh")) "server_ts" (Json.num 7)))) }
          "s") ∧
    lookupA (setA (setA [("server_id", Json.str "mine")] "server_id"
      (Json.str "fresh")) "server_ts" (Json.num 7)) "server_id" =
      some (Json.str "fresh") ∧
    lookupA (setA (setA [("server_id", Json.str "mine")] "server_id"
      (Json.str "fresh")) "server_ts" (Json.num 7)) "server_ts" =
      some (Json.num 7) := by
  have h := @c5_enrichment c5parse (fun _ => false) "fresh" 7 c5st "s"
    [(0, c5text)] 1 [("server_id", Json.str "mine")] (by decide) rfl
    (fun i hi => by
      have h0 : i = 0 := by omega
      subst h0; rfl)
    rfl rfl
  exact ⟨h.1, h.2.1, h.2.2.1⟩

/-- C1 counterexample: the delete response is `{"status": "success"}` with no
count — deleting one matching record and deleting two matching records
produce the identical response value, so the operation cannot be returning
the count of records removed. -/
theorem c1_counterexample :
    (delete_paste c1st1 "x").1 = DeleteResult.ok ∧
    (delete_paste c1st2 "x").1 = DeleteResult.ok ∧
    (delete_paste c1st1 "x").1 = (delete_paste c1st2 "x").1 ∧
    c1st1.data.length = 1 ∧ c1st2.data.length = 2 ∧
    (delete_paste c1st1 "x").2.data.length = 0 ∧
    (delete_paste c1st2 "x").2.data.length = 0 := by decide

/-- C1 (amended): a delete whose identifier matches at least one stored
record removes every record whose storage key ends in `_{identifier}.json`,
keeps every non-matching record, and returns the bare success status (no
count is included in the response). -/
theorem c1_delete_removes_matches {st : SrvState} {pid : String}
    (h1 : strContains pid ".." = false) (h2 : strContains pid "/" = false)
    (hmatch : (st.data.filter fun f => matchKey pid f.1).isEmpty = false) :
    delete_paste st pid =
      (.ok, { st with data := st.data.filter fun f => !(matchKey pid f.1) }) ∧
    (∀ f, f ∈ (delete_paste st pid).2.data → matchKey pid f.1 = false) ∧
    (∀ f, f ∈ st.data → matchKey pid f.1 = false →
      f ∈ (delete_paste st pid).2.data) := by
  have hor : (strContains pid ".." || strContains pid "/") = false := by
    simp [h1, h2]
  have hmain : delete_paste st pid =
      (.ok, { st with data := st.data.filter fun f => !(matchKey pid f.1) }) := by
    rw [delete_paste, hor]
    rw [hmatch]
    rfl
  refine ⟨hmain, ?_, ?_⟩
  · intro f hf
    rw [hmain] at hf
    have h := List.mem_filter.mp hf
    simpa using h.2
  · intro f hf hnm
    rw [hmain]
    exact List.mem_filter.mpr ⟨hf, by simp [hnm]⟩

/-- C1 witness: deleting identifier `x` from the one-record store removes the
matching record and returns the status-only success response. -/
theorem c1_witness :
    delete_paste c1st1 "x" =
      (.ok, { c1st1 with
        data := c1st1.data.filter fun f => !(matchKey "x" f.1) }) :=
  (@c1_delete_removes_matches c1st1 "x" (by decide) (by decide) (by decide)).1

/-- C9 counterexample: the Flask list endpoint returns a record that lacks a
`remark` field exactly as stored — the returned object has no `remark`
binding at all instead of an empty one. -/
theorem c9_counterexample :
    list_pastes c9st = [Json.obj [("server_id", Json.str "a")]] ∧
    lookupA [("server_id", Json.str "a")] "remark" = none ∧
    list_pastes_main c9st =
      [Json.obj [("server_id", Json.str "a"), ("remark", Json.str "")]] :=
  ⟨rfl, rfl, rfl⟩

/-- C9 (amended): for a stored record in the listing window whose object
lacks a `remark` field, the main.py list endpoint returns it with an empty
`remark` appended, while the main_flask.py list endpoint returns the object
unchanged, without any `remark` field. -/
theorem c9_remark_backfill {st : SrvState} {fname : String}
    {fields : List (String × Json)}
    (hmem : (fname, some (Json.obj fields)) ∈ (sortedFiles st).take 200)
    (hnor : lookupA fields "remark" = none) :
    Json.obj (setA fields "remark" (Json.str "")) ∈ list_pastes_main st ∧
    Json.obj fields ∈ list_pastes st := by
  constructor
  · unfold list_pastes_main
    refine List.mem_filterMap.mpr ⟨(fname, some (Json.obj fields)), hmem, ?_⟩
    simp [Option.bind, remarkFill, hnor]
  · unfold list_pastes
    exact List.mem_filterMap.mpr ⟨(fname, some (Json.obj fields)), hmem, rfl⟩

/-- C9 witness: the back-fill on the concrete store with one remark-less
record. -/
theorem c9_witness :
    Json.obj (setA [("server_id", Json.str "a")] "remark" (Json.str "")) ∈
      list_pastes_main c9st ∧
    Json.obj [("server_id", Json.str "a")] ∈ list_pastes c9st :=
  @c9_remark_backfill c9st "5_a.json" [("server_id", Json.str "a")]
    (List.Mem.head _) rfl

/-- C4: pushing a set of fragments bearing sequence numbers 0..N-1 in any
arrival order and then committing with expected_count = N produces exactly
the same commit outcome, and a byte-identical reassembled stream, as pushing
them in ascending order: reassembly concatenates slots in ascending
sequence-number order, independent of push order. -/
theorem c4_push_order_independent (parse : String → Option Json)
    (rf : Nat → Bool) (pf : Bool) (pid : String) (ts : Nat)
    {st : SrvState} {sid : String} {n : Nat} {l l' : List (Nat × String)}
    (hid : sid ≠ "") (h1 : strContains sid ".." = false)
    (h2 : strContains sid "/" = false)
    (hsess : lookupA st.temp sid = some [])
    (hkeys : (l.map Prod.fst).Perm (List.range n))
    (hperm : l'.Perm l) :
    upload_finish parse rf pf pid ts (pushMany st sid l') sid n =
      upload_finish parse rf pf pid ts (pushMany st sid l) sid n ∧
    mergeAll ((lookupA (pushMany st sid l').temp sid).getD []) n =
      mergeAll ((lookupA (pushMany st sid l).temp sid).getD []) n := by
  have hnd : (l.map Prod.fst).Nodup := hkeys.nodup_iff.mpr (List.nodup_range _)
  have hnd' : (l'.map Prod.fst).Nodup := (hperm.map Prod.fst).nodup_iff.mpr hnd
  have hfold : l.foldl (fun s p => setA s p.1 p.2) [] = l := by
    simpa using foldl_setA_fresh l [] hnd (by simp)
  have hfold' : l'.foldl (fun s p => setA s p.1 p.2) [] = l' := by
    simpa using foldl_setA_fresh l' [] hnd' (by simp)
  have hpush : pushMany st sid l = { st with temp := setA st.temp sid l } := by
    rw [pushMany_state hid h1 h2 l st [] hsess, hfold]
  have hpush' : pushMany st sid l' = { st with temp := setA st.temp sid l' } := by
    rw [pushMany_state hid h1 h2 l' st [] hsess, hfold']
  have hlk : ∀ k, lookupA l' k = lookupA l k := lookupA_perm hperm hnd'
  constructor
  · rw [hpush, hpush']
    exact finish_setA_congr parse rf pf pid ts hid hlk n
  · rw [hpush, hpush']
    simp only [lookupA_setA_self, Option.getD_some]
    exact mergeAll_congr hlk n

/-- C4 witness: fragments 0 and 1 pushed in the swapped order commit exactly
like the ascending order on a concrete fresh session. -/
theorem c4_witness :
    upload_finish (fun _ => none) (fun _ => false) false "id" 3
        (pushMany c4st "s" [(1, "b"), (0, "a")]) "s" 2 =
      upload_finish (fun _ => none) (fun _ => false) false "id" 3
        (pushMany c4st "s" [(0, "a"), (1, "b")]) "s" 2 ∧
    mergeAll ((lookupA (pushMany c4st "s" [(1, "b"), (0, "a")]).temp "s").getD [])
        2 =
      mergeAll ((lookupA (pushMany c4st "s" [(0, "a"), (1, "b")]).temp "s").getD [])
        2 :=
  @c4_push_order_independent (fun _ => none) (fun _ => false) false "id" 3
    c4st "s" 2 [(0, "a"), (1, "b")] [(1, "b"), (0, "a")]
    (by decide) (by decide) (by decide) rfl (by decide) (by decide)
